import Mathlib

/-!
Verification of the image-processing pipeline of CarNumberPlateMasker
(`backend/app/main.py`): vehicle localization (`ImageProcessor.get_car_bbox`),
license-plate masking (`ImageProcessor.mask_license_plates`), aspect-preserving
crop/resize (`ImageProcessor.resize_to_aspect_ratio`) and the orchestrating
`process_image`.

Modelling conventions:
* An image is its height, width and a pixel map `ℕ → ℕ → Pixel` (row, column);
  a pixel is a triple of channel values, so the three-channel layout is fixed
  by the type.
* Python `float` arithmetic on the aspect ratios is modelled as exact rational
  arithmetic: `int(h * (1024/576))` becomes the natural-number floor
  `1024 * h / 576`, and the comparison `w / h > 1024 / 576` becomes
  `576 * w > 1024 * h`.
* Python `//` on possibly-negative ints is floor division, `Int.fdiv`.
* NumPy basic slice assignment `image[y1:y2, x1:x2] = c` is modelled with
  Python slice-index normalisation: a negative bound has the axis length
  added to it, then the bound is clamped to `[0, n]`.
* `cv2.resize` raises on an empty source and otherwise returns an image of
  exactly the requested dimensions; its interpolated pixel content is
  abstracted as subsampling (no claim concerns resampled pixel values).
* The detection models are opaque capabilities: a detector invocation is an
  `Except DetErr (List Detection)` value, `.error` standing for an exception
  raised by the model call.
-/

namespace CarMasker

/-- A BGR pixel: three 8-bit channels (channel range is immaterial here). -/
abbrev Pixel := ℕ × ℕ × ℕ

/-- An image: height, width, and a pixel map (row index first, as in NumPy). -/
@[ext]
structure Image where
  h : ℕ
  w : ℕ
  pix : ℕ → ℕ → Pixel

/-- A detection returned by a model: class label plus `xyxy` box corners,
already cast to `int` as in `map(int, box.xyxy[0].tolist())`. -/
structure Detection where
  cls : ℤ
  x1 : ℤ
  y1 : ℤ
  x2 : ℤ
  y2 : ℤ
  deriving DecidableEq

/-- A vehicle bounding box `(x1, y1, x2, y2)` as returned by `get_car_bbox`. -/
structure Box where
  x1 : ℤ
  y1 : ℤ
  x2 : ℤ
  y2 : ℤ
  deriving DecidableEq

/-- An opaque error raised inside a detection-model call. -/
abbrev DetErr := Unit

/-- `TARGET_SIZE = (1024, 576)` — (width, height). -/
def TARGET_SIZE : ℕ × ℕ := (1024, 576)

/-- `LICENSE_PLATE_CLASS_ID = 0`. -/
def LICENSE_PLATE_CLASS_ID : ℤ := 0

/-- `CAR_CLASS_IDS = [2, 5, 7]`. -/
def CAR_CLASS_IDS : List ℤ := [2, 5, 7]

/-- The fill colour `(255, 255, 255)` written over plate regions. -/
def whiteFill : Pixel := (255, 255, 255)

/-- Python slice-bound normalisation for an axis of length `n` (step 1):
a negative bound gets `n` added, then the result is clamped to `[0, n]`.
This is the index arithmetic behind `image[y1:y2, x1:x2]`. -/
def sliceIdx (n : ℕ) (a : ℤ) : ℕ :=
  if a < 0 then (max (a + n) 0).toNat else min a.toNat n

/-- One iteration of the loop body of `mask_license_plates`: if the box has the
plate class, assign `whiteFill` to the slice `image[y1:y2, x1:x2]`. -/
def maskOne (img : Image) (d : Detection) : Image :=
  if d.cls = LICENSE_PLATE_CLASS_ID then
    { img with pix := fun y x =>
        if sliceIdx img.h d.y1 ≤ y ∧ y < sliceIdx img.h d.y2 ∧
           sliceIdx img.w d.x1 ≤ x ∧ x < sliceIdx img.w d.x2 then whiteFill
        else img.pix y x }
  else img

/-- `ImageProcessor.mask_license_plates`, with the plate model's output for
this image passed explicitly: every detection whose class is
`LICENSE_PLATE_CLASS_ID` has its box painted `whiteFill`, in order, and the
(mutated) image is returned. -/
def mask_license_plates (img : Image) (dets : List Detection) : Image :=
  dets.foldl maskOne img

/-- Whether pixel `(y, x)` lies in the slice actually written for detection `d`
on an image of extent `h × w`. -/
def inSlice (h w : ℕ) (d : Detection) (y x : ℕ) : Prop :=
  d.cls = LICENSE_PLATE_CLASS_ID ∧
  sliceIdx h d.y1 ≤ y ∧ y < sliceIdx h d.y2 ∧
  sliceIdx w d.x1 ≤ x ∧ x < sliceIdx w d.x2

instance (h w : ℕ) (d : Detection) (y x : ℕ) : Decidable (inSlice h w d y x) := by
  unfold inSlice; infer_instance

/-! ### Vehicle localizer: `ImageProcessor.get_car_bbox` -/

/-- `(b[2] - b[0]) * (b[3] - b[1])` — the key used by `max(car_boxes, key=...)`. -/
def boxArea (b : Box) : ℤ := (b.x2 - b.x1) * (b.y2 - b.y1)

/-- The filtered and converted list `car_boxes` built by the loop in
`get_car_bbox`: detections whose class is in `CAR_CLASS_IDS`, as boxes, in
detection order. -/
def vehicleBoxes (dets : List Detection) : List Box :=
  (dets.filter (fun d => d.cls ∈ CAR_CLASS_IDS)).map (fun d => ⟨d.x1, d.y1, d.x2, d.y2⟩)

/-- One comparison step of Python `max(car_boxes, key=area)`: the candidate
replaces the current best only on a strictly larger key. -/
def pickLarger (acc c : Box) : Box := if boxArea acc < boxArea c then c else acc

/-- Python `max(car_boxes, key=area)` (raises on an empty list, but the code
guards with `if car_boxes else None`): fold over the tail, so the first
maximum wins. -/
def maxByArea : List Box → Option Box
  | [] => none
  | b :: bs => some (bs.foldl pickLarger b)

/-- `ImageProcessor.get_car_bbox`, with the vehicle model's output passed
explicitly. The surrounding `try`/`except` catches any exception raised by the
model call, logs it, and returns `None`. -/
def get_car_bbox (detected : Except DetErr (List Detection)) : Option Box :=
  match detected with
  | .error _ => none
  | .ok dets => maxByArea (vehicleBoxes dets)

/-! ### Aspect-preserving cropper: `ImageProcessor.resize_to_aspect_ratio` -/

/-- The crop dimensions `(new_w, new_h)` computed from `h, w` and
`TARGET_SIZE`. `current_aspect > target_aspect` is `w/h > 1024/576`, i.e.
`576*w > 1024*h`; `int(h * target_aspect)` is `1024*h/576` (ℕ-division =
floor) and `int(w / target_aspect)` is `576*w/1024`. -/
def cropDims (h w : ℕ) : ℕ × ℕ :=
  if 1024 * h < 576 * w then (1024 * h / 576, h) else (w, 576 * w / 1024)

/-- The crop window: top-left corner `(x1, y1)` (ints, before slicing) together
with its extent `(new_w, new_h)`. -/
structure CropRect where
  x1 : ℤ
  y1 : ℤ
  nw : ℕ
  nh : ℕ

/-- The crop-coordinate computation of `resize_to_aspect_ratio`: anchored on
the car-box centre when a box is present (`if car_box:` — any box tuple is
truthy), else the image centre, clamped via `max 0` then `min (extent - new)`. -/
def cropRect (h w : ℕ) (car_box : Option Box) : CropRect :=
  let nw := (cropDims h w).1
  let nh := (cropDims h w).2
  match car_box with
  | some b =>
      let cx := (b.x1 + b.x2).fdiv 2
      let cy := (b.y1 + b.y2).fdiv 2
      let x1 := max 0 (cx - (nw : ℤ).fdiv 2)
      let y1 := max 0 (cy - (nh : ℤ).fdiv 2)
      ⟨min x1 ((w : ℤ) - nw), min y1 ((h : ℤ) - nh), nw, nh⟩
  | none =>
      ⟨((w : ℤ) - nw).fdiv 2, ((h : ℤ) - nh).fdiv 2, nw, nh⟩

/-- NumPy slice extraction `image[y1:y2, x1:x2]` (basic slicing, step 1):
normalised bounds, an empty axis when the bounds cross. -/
def cropImage (img : Image) (y1 y2 x1 x2 : ℤ) : Image :=
  let ys := sliceIdx img.h y1
  let ye := sliceIdx img.h y2
  let xs := sliceIdx img.w x1
  let xe := sliceIdx img.w x2
  ⟨ye - ys, xe - xs, fun y x => img.pix (ys + y) (xs + x)⟩

/-- `cv2.resize(src, (tw, th), INTER_AREA)`: raises (`none`) on an empty
source, otherwise returns an image of exactly `th × tw`; the interpolated
content is abstracted as subsampling, which no claim depends on. -/
def cvResize (img : Image) (size : ℕ × ℕ) : Option Image :=
  if img.h = 0 ∨ img.w = 0 then none
  else some ⟨size.2, size.1, fun y x => img.pix (y * img.h / size.2) (x * img.w / size.1)⟩

/-- `ImageProcessor.resize_to_aspect_ratio`: crop to the target aspect ratio
(car-centred when a box is given), then `cv2.resize` to `TARGET_SIZE`.
`none` models an exception escaping the call. -/
def resizeToAspect (img : Image) (car_box : Option Box) : Option Image :=
  let r := cropRect img.h img.w car_box
  cvResize (cropImage img r.y1 (r.y1 + r.nh) r.x1 (r.x1 + r.nw)) TARGET_SIZE

/-! ### Orchestrator: `process_image` -/

/-- `process_image`, with I/O made explicit: `img = none` models
`cv2.imread` failing; the two `Except` arguments are the outcomes of the
vehicle-model call (consumed by `get_car_bbox`, which catches errors) and the
plate-model call (raised inside `mask_license_plates`, propagated by the outer
handler). `.ok out` means `cv2.imwrite` persisted `out`; any `.error` means
the pipeline re-raised and nothing was written. -/
def process_image (img : Option Image)
    (carDet plateDet : Except DetErr (List Detection)) : Except DetErr Image :=
  match img with
  | none => .error ()
  | some img =>
      let car_box := get_car_bbox carDet
      match plateDet with
      | .error e => .error e
      | .ok dets =>
          let masked := mask_license_plates img dets
          match resizeToAspect masked car_box with
          | none => .error ()
          | some out => .ok out

/-- Pixel `(y, x)` lies strictly within `[y1, y2) × [x1, x2)` of a plate-class
detection (the spec's description of the masked region). -/
def inRegion (d : Detection) (y x : ℕ) : Prop :=
  d.cls = LICENSE_PLATE_CLASS_ID ∧
  d.y1 ≤ (y : ℤ) ∧ (y : ℤ) < d.y2 ∧ d.x1 ≤ (x : ℤ) ∧ (x : ℤ) < d.x2

instance (d : Detection) (y x : ℕ) : Decidable (inRegion d y x) := by
  unfold inRegion; infer_instance

/-- Pixel `(y, x)` lies in the part of the region `[y1, y2) × [x1, x2)` that is
inside an `h × w` image — the clamped region of a plate-class detection. -/
def inClampedRegion (h w : ℕ) (d : Detection) (y x : ℕ) : Prop :=
  d.cls = LICENSE_PLATE_CLASS_ID ∧
  d.y1 ≤ (y : ℤ) ∧ (y : ℤ) < min d.y2 (h : ℤ) ∧
  d.x1 ≤ (x : ℤ) ∧ (x : ℤ) < min d.x2 (w : ℤ)

instance (h w : ℕ) (d : Detection) (y x : ℕ) : Decidable (inClampedRegion h w d y x) := by
  unfold inClampedRegion; infer_instance

/-- The spec scenario for the vehicle localizer: two "car"-class detections
with areas `25 * 20 = 500` and `40 * 50 = 2000`. -/
def scenarioDets : List Detection := [⟨2, 0, 0, 25, 20⟩, ⟨2, 100, 100, 140, 150⟩]

/-- The spec scenario for the plate masker: a 200 × 200 image and the plate
box `(x1=50, y1=60, x2=150, y2=100)`. -/
def imgA : Image := ⟨200, 200, fun _ _ => (0, 0, 0)⟩

/-- The plate detection `(50, 60, 150, 100)` of the masking scenario. -/
def plateDetA : Detection := ⟨0, 50, 60, 150, 100⟩

/-- A 100 × 100 image of constant colour `(1, 2, 3)`. -/
def imgB : Image := ⟨100, 100, fun _ _ => (1, 2, 3)⟩

/-- A plate detection with a negative `x1`: its in-bounds part on `imgB` is
`[0, 5) × [0, 10)`, but the slice NumPy writes is `[0:5, 95:10]`, i.e. empty. -/
def plateDetNeg : Detection := ⟨0, -5, 0, 10, 5⟩

/-- A plate detection extending past the right edge of `imgB` (`x2 = 300`). -/
def plateDetWide : Detection := ⟨0, 50, 0, 300, 5⟩

/-- A valid 1 × 1 input image: the cropper computes `new_h = int(1*576/1024) = 0`
for it, so the crop is empty and `cv2.resize` raises. -/
def imgOne : Image := ⟨1, 1, fun _ _ => (0, 0, 0)⟩

/-- A 2 × 2 input image, the smallest on which the pipeline succeeds. -/
def imgSmall : Image := ⟨2, 2, fun _ _ => (0, 0, 0)⟩

/-- A 100 × 100 input image for the error-handling scenario. -/
def imgSquare : Image := ⟨100, 100, fun _ _ => (0, 0, 0)⟩

/-! ### Basic facts about masking -/

@[simp] theorem mask_nil (img : Image) : mask_license_plates img [] = img := rfl

theorem mask_cons (img : Image) (d : Detection) (dets : List Detection) :
    mask_license_plates img (d :: dets) = mask_license_plates (maskOne img d) dets := rfl

@[simp] theorem maskOne_h (img : Image) (d : Detection) : (maskOne img d).h = img.h := by
  unfold maskOne; split <;> rfl

@[simp] theorem maskOne_w (img : Image) (d : Detection) : (maskOne img d).w = img.w := by
  unfold maskOne; split <;> rfl

@[simp] theorem mask_h (img : Image) (dets : List Detection) :
    (mask_license_plates img dets).h = img.h := by
  induction dets generalizing img with
  | nil => rfl
  | cons d dets ih => rw [mask_cons, ih, maskOne_h]

@[simp] theorem mask_w (img : Image) (dets : List Detection) :
    (mask_license_plates img dets).w = img.w := by
  induction dets generalizing img with
  | nil => rfl
  | cons d dets ih => rw [mask_cons, ih, maskOne_w]

theorem maskOne_pix (img : Image) (d : Detection) (y x : ℕ) :
    (maskOne img d).pix y x =
      if inSlice img.h img.w d y x then whiteFill else img.pix y x := by
  unfold maskOne inSlice
  by_cases hc : d.cls = LICENSE_PLATE_CLASS_ID
  · simp only [hc, if_true, true_and]
  · simp [hc]

/-- Pixel-wise description of `mask_license_plates`: a pixel is white if it lies
in the written slice of some plate-class detection, and untouched otherwise. -/
theorem mask_pix (img : Image) (dets : List Detection) (y x : ℕ) :
    (mask_license_plates img dets).pix y x =
      if ∃ d ∈ dets, inSlice img.h img.w d y x then whiteFill else img.pix y x := by
  induction dets generalizing img with
  | nil => simp
  | cons d dets ih =>
    rw [mask_cons, ih, maskOne_h, maskOne_w, maskOne_pix]
    by_cases hd : inSlice img.h img.w d y x
    · simp [hd]
    · by_cases hrest : ∃ e ∈ dets, inSlice img.h img.w e y x
      · rcases hrest with ⟨e, he, hin⟩
        rw [if_pos ⟨e, he, hin⟩, if_pos ⟨e, List.mem_cons_of_mem d he, hin⟩]
      · have hall : ¬∃ e ∈ d :: dets, inSlice img.h img.w e y x := by
          rintro ⟨e, he, hin⟩
          rcases List.mem_cons.mp he with rfl | he'
          · exact hd hin
          · exact hrest ⟨e, he', hin⟩
        rw [if_neg hrest, if_neg hall, if_neg hd]

/-! ### Arithmetic facts about the embedding's building blocks -/

theorem sliceIdx_of_bounds (n : ℕ) (a : ℤ) (h0 : 0 ≤ a) (hn : a ≤ n) :
    sliceIdx n a = a.toNat := by
  unfold sliceIdx; split <;> omega

theorem sliceIdx_le (n : ℕ) (a : ℤ) : sliceIdx n a ≤ n := by
  unfold sliceIdx; split <;> omega

theorem sliceIdx_of_nonneg (n : ℕ) (a : ℤ) (h0 : 0 ≤ a) :
    sliceIdx n a = min a.toNat n := by
  unfold sliceIdx; split <;> omega

theorem natCast_fdiv_two (n : ℕ) : ((n : ℤ)).fdiv 2 = (n : ℤ) / 2 :=
  Int.fdiv_eq_ediv _ (by norm_num)

theorem fdiv_two_eq_ediv (a : ℤ) : a.fdiv 2 = a / 2 :=
  Int.fdiv_eq_ediv _ (by norm_num)

theorem cropDims_le (h w : ℕ) :
    (cropDims h w).1 ≤ w ∧ (cropDims h w).2 ≤ h := by
  unfold cropDims; split <;> constructor <;> simp <;> omega

theorem cropDims_pos (h w : ℕ) (hh : 1 ≤ h) (hw : 2 ≤ w) :
    1 ≤ (cropDims h w).1 ∧ 1 ≤ (cropDims h w).2 := by
  unfold cropDims; split <;> constructor <;> simp <;> omega

/-- The clamped crop corner always lands inside `[0, w - nw] × [0, h - nh]`,
whatever box (or none) is supplied. -/
theorem cropRect_bounds (h w : ℕ) (box : Option Box) :
    (cropRect h w box).nw = (cropDims h w).1 ∧ (cropRect h w box).nh = (cropDims h w).2 ∧
    0 ≤ (cropRect h w box).x1 ∧ (cropRect h w box).x1 ≤ (w : ℤ) - (cropRect h w box).nw ∧
    0 ≤ (cropRect h w box).y1 ∧ (cropRect h w box).y1 ≤ (h : ℤ) - (cropRect h w box).nh := by
  obtain ⟨hnw, hnh⟩ := cropDims_le h w
  cases box with
  | none =>
      refine ⟨rfl, rfl, ?_, ?_, ?_, ?_⟩ <;>
        simp only [cropRect] <;>
        rw [fdiv_two_eq_ediv] <;> omega
  | some b =>
      refine ⟨rfl, rfl, ?_, ?_, ?_, ?_⟩ <;> simp only [cropRect] <;> omega

/-- Extracting a window whose corner and extent stay inside the image yields
exactly that extent. -/
theorem cropImage_dims (img : Image) (y1 x1 : ℤ) (nh nw : ℕ)
    (hy0 : 0 ≤ y1) (hy : y1 + nh ≤ (img.h : ℤ))
    (hx0 : 0 ≤ x1) (hx : x1 + nw ≤ (img.w : ℤ)) :
    (cropImage img y1 (y1 + nh) x1 (x1 + nw)).h = nh ∧
    (cropImage img y1 (y1 + nh) x1 (x1 + nw)).w = nw := by
  unfold cropImage
  rw [sliceIdx_of_bounds _ _ hy0 (by omega), sliceIdx_of_bounds _ _ (by omega) hy,
    sliceIdx_of_bounds _ _ hx0 (by omega), sliceIdx_of_bounds _ _ (by omega) hx]
  constructor <;> simp <;> omega

/-- On a source of height ≥ 1 and width ≥ 2 the crop is non-empty, so
`cv2.resize` succeeds and the result has exactly the `TARGET_SIZE`
dimensions. -/
theorem resizeToAspect_dims (img : Image) (box : Option Box)
    (hh : 1 ≤ img.h) (hw : 2 ≤ img.w) :
    ∃ out, resizeToAspect img box = some out ∧ out.w = 1024 ∧ out.h = 576 := by
  obtain ⟨hnw, hnh, hx0, hx1, hy0, hy1⟩ := cropRect_bounds img.h img.w box
  obtain ⟨hp1, hp2⟩ := cropDims_pos img.h img.w hh hw
  unfold resizeToAspect
  obtain ⟨hch, hcw⟩ := cropImage_dims img (cropRect img.h img.w box).y1
    (cropRect img.h img.w box).x1 (cropRect img.h img.w box).nh
    (cropRect img.h img.w box).nw hy0 (by omega) hx0 (by omega)
  unfold cvResize
  rw [if_neg]
  · exact ⟨_, rfl, rfl, rfl⟩
  · rw [hch, hcw]; omega

/-! ### The argmax-with-first-tie-break property of the `max` fold -/

/-- The fold of `pickLarger` returns an element of maximal area, and the
element it returns is the first one attaining that maximum: everything before
it in the list has strictly smaller area. -/
theorem foldl_pickLarger_spec (bs : List Box) (b : Box) :
    (∀ c ∈ b :: bs, boxArea c ≤ boxArea (bs.foldl pickLarger b)) ∧
    ∃ l₁ l₂, b :: bs = l₁ ++ (bs.foldl pickLarger b) :: l₂ ∧
      ∀ c ∈ l₁, boxArea c < boxArea (bs.foldl pickLarger b) := by
  induction bs generalizing b with
  | nil =>
      refine ⟨?_, [], [], rfl, by simp⟩
      intro c hc
      rw [List.mem_singleton] at hc
      exact hc ▸ le_refl _
  | cons c bs ih =>
      have hfold : (c :: bs).foldl pickLarger b = bs.foldl pickLarger (pickLarger b c) := rfl
      by_cases hlt : boxArea b < boxArea c
      · have hpick : pickLarger b c = c := if_pos hlt
        obtain ⟨hmax, l₁, l₂, heq, hpre⟩ := ih c
        rw [hfold, hpick]
        have hcr : boxArea c ≤ boxArea (bs.foldl pickLarger c) :=
          hmax c (List.mem_cons_self c bs)
        refine ⟨?_, b :: l₁, l₂, ?_, ?_⟩
        · intro x hx
          rcases List.mem_cons.mp hx with rfl | hx'
          · exact le_of_lt (lt_of_lt_of_le hlt hcr)
          · exact hmax x hx'
        · rw [List.cons_append, ← heq]
        · intro x hx
          rcases List.mem_cons.mp hx with rfl | hx'
          · exact lt_of_lt_of_le hlt hcr
          · exact hpre x hx'
      · have hpick : pickLarger b c = b := if_neg hlt
        have hcb : boxArea c ≤ boxArea b := not_lt.mp hlt
        obtain ⟨hmax, l₁, l₂, heq, hpre⟩ := ih b
        rw [hfold, hpick]
        refine ⟨?_, ?_⟩
        · intro x hx
          rcases List.mem_cons.mp hx with rfl | hx'
          · exact hmax x (List.mem_cons_self x bs)
          · rcases List.mem_cons.mp hx' with rfl | hx''
            · exact le_trans hcb (hmax b (List.mem_cons_self b bs))
            · exact hmax x (List.mem_cons_of_mem b hx'')
        · cases l₁ with
          | nil =>
              simp only [List.nil_append] at heq
              have hb : b = bs.foldl pickLarger b := by
                injection heq
              refine ⟨[], c :: bs, ?_, by simp⟩
              rw [List.nil_append, ← hb]
          | cons a l₁' =>
              simp only [List.cons_append] at heq
              injection heq with h1 h2
              subst h1
              have hbr : boxArea b < boxArea (bs.foldl pickLarger b) :=
                hpre b (List.mem_cons_self b l₁')
              refine ⟨b :: c :: l₁', l₂, ?_, ?_⟩
              · rw [List.cons_append, List.cons_append, ← h2]
              · intro x hx
                rcases List.mem_cons.mp hx with rfl | hx'
                · exact hbr
                · rcases List.mem_cons.mp hx' with rfl | hx''
                  · exact lt_of_le_of_lt hcb hbr
                  · exact hpre x (List.mem_cons_of_mem b hx'')

theorem maxByArea_eq_none (l : List Box) : maxByArea l = none ↔ l = [] := by
  cases l <;> simp [maxByArea]

theorem maxByArea_spec (l : List Box) (b : Box) (h : maxByArea l = some b) :
    (∀ c ∈ l, boxArea c ≤ boxArea b) ∧
    ∃ l₁ l₂, l = l₁ ++ b :: l₂ ∧ ∀ c ∈ l₁, boxArea c < boxArea b := by
  cases l with
  | nil => simp [maxByArea] at h
  | cons hd tl =>
      have hb : tl.foldl pickLarger hd = b := by
        simpa [maxByArea] using h
      obtain ⟨hmax, l₁, l₂, heq, hpre⟩ := foldl_pickLarger_spec tl hd
      rw [hb] at hmax heq hpre
      exact ⟨hmax, l₁, l₂, heq, hpre⟩

theorem vehicleBoxes_eq_nil (dets : List Detection) :
    vehicleBoxes dets = [] ↔ ∀ d ∈ dets, d.cls ∉ CAR_CLASS_IDS := by
  unfold vehicleBoxes
  rw [List.map_eq_nil_iff, List.filter_eq_nil_iff]
  simp

/-! ### Region descriptions of the masked area -/

theorem inSlice_iff_inRegion (h w : ℕ) (d : Detection) (y x : ℕ)
    (h1 : 0 ≤ d.x1) (h2 : d.x2 ≤ (w : ℤ)) (h3 : 0 ≤ d.y1) (h4 : d.y2 ≤ (h : ℤ))
    (h5 : d.x1 ≤ d.x2) (h6 : d.y1 ≤ d.y2) :
    inSlice h w d y x ↔ inRegion d y x := by
  unfold inSlice inRegion
  rw [sliceIdx_of_bounds h d.y1 h3 (by omega), sliceIdx_of_bounds h d.y2 (by omega) h4,
    sliceIdx_of_bounds w d.x1 h1 (by omega), sliceIdx_of_bounds w d.x2 (by omega) h2]
  omega

theorem inSlice_iff_inClampedRegion (h w : ℕ) (d : Detection) (y x : ℕ)
    (h1 : 0 ≤ d.x1) (h2 : 0 ≤ d.y1) (h3 : 0 ≤ d.x2) (h4 : 0 ≤ d.y2) :
    inSlice h w d y x ↔ inClampedRegion h w d y x := by
  unfold inSlice inClampedRegion
  rw [sliceIdx_of_nonneg h d.y1 h2, sliceIdx_of_nonneg h d.y2 h4,
    sliceIdx_of_nonneg w d.x1 h1, sliceIdx_of_nonneg w d.x2 h3]
  omega

theorem mask_white_of_inSlice (img : Image) (dets : List Detection) (y x : ℕ)
    (hin : ∃ d ∈ dets, inSlice img.h img.w d y x) :
    (mask_license_plates img dets).pix y x = whiteFill := by
  rw [mask_pix, if_pos hin]

theorem mask_unchanged_of_notSlice (img : Image) (dets : List Detection) (y x : ℕ)
    (hout : ∀ d ∈ dets, ¬ inSlice img.h img.w d y x) :
    (mask_license_plates img dets).pix y x = img.pix y x := by
  rw [mask_pix, if_neg]
  rintro ⟨d, hd, hin⟩
  exact hout d hd hin

/-- Pixels outside the image extent are never written by masking. -/
theorem mask_outside_bounds (img : Image) (dets : List Detection) (y x : ℕ)
    (hyx : img.h ≤ y ∨ img.w ≤ x) :
    (mask_license_plates img dets).pix y x = img.pix y x := by
  apply mask_unchanged_of_notSlice
  rintro d - ⟨-, -, hy, -, hx⟩
  have := sliceIdx_le img.h d.y2
  have := sliceIdx_le img.w d.x2
  omega

/-! ### Claim theorems: plate masking -/

/-- C10: masking never changes the image dimensions — the result has the same
height and width as the input (the three-channel pixel layout is fixed by the
`Pixel` type), the returned image being the threaded-through input buffer. -/
theorem mask_preserves_dims (img : Image) (dets : List Detection) :
    (mask_license_plates img dets).h = img.h ∧
    (mask_license_plates img dets).w = img.w :=
  ⟨mask_h img dets, mask_w img dets⟩

/-- C8: masking is idempotent — applying the plate masker twice with the same
detections yields pixel-for-pixel the same image as applying it once. -/
theorem mask_idempotent (img : Image) (dets : List Detection) :
    mask_license_plates (mask_license_plates img dets) dets
      = mask_license_plates img dets := by
  refine Image.ext (mask_h _ _) (mask_w _ _) ?_
  funext y x
  rw [mask_pix (mask_license_plates img dets) dets y x, mask_h, mask_w]
  by_cases hc : ∃ d ∈ dets, inSlice img.h img.w d y x
  · rw [if_pos hc, mask_pix img dets y x, if_pos hc]
  · rw [if_neg hc]

/-- C6: for in-bounds plate boxes, masking overwrites exactly the pixels
strictly within `[y1, y2) × [x1, x2)` of the plate-class regions with the
white fill and leaves every other pixel unchanged; for the scenario box
`(50, 60, 150, 100)` the columns 49 and 150 are untouched while the interior
is white. -/
theorem mask_exact_region (img : Image) (dets : List Detection)
    (hb : ∀ d ∈ dets, 0 ≤ d.x1 ∧ d.x2 ≤ (img.w : ℤ) ∧ 0 ≤ d.y1 ∧
      d.y2 ≤ (img.h : ℤ) ∧ d.x1 ≤ d.x2 ∧ d.y1 ≤ d.y2) :
    (∀ y x : ℕ, (∃ d ∈ dets, inRegion d y x) →
        (mask_license_plates img dets).pix y x = whiteFill) ∧
    (∀ y x : ℕ, (∀ d ∈ dets, ¬ inRegion d y x) →
        (mask_license_plates img dets).pix y x = img.pix y x) ∧
    (∀ y : ℕ, (mask_license_plates imgA [plateDetA]).pix y 49 = imgA.pix y 49 ∧
        (mask_license_plates imgA [plateDetA]).pix y 150 = imgA.pix y 150) ∧
    (mask_license_plates imgA [plateDetA]).pix 60 50 = whiteFill := by
  refine ⟨?_, ?_, ?_, ?_⟩
  · rintro y x ⟨d, hd, hin⟩
    obtain ⟨b1, b2, b3, b4, b5, b6⟩ := hb d hd
    exact mask_white_of_inSlice img dets y x
      ⟨d, hd, (inSlice_iff_inRegion img.h img.w d y x b1 b2 b3 b4 b5 b6).mpr hin⟩
  · intro y x hout
    apply mask_unchanged_of_notSlice
    intro d hd hin
    obtain ⟨b1, b2, b3, b4, b5, b6⟩ := hb d hd
    exact hout d hd ((inSlice_iff_inRegion img.h img.w d y x b1 b2 b3 b4 b5 b6).mp hin)
  · intro y
    constructor
    · apply mask_unchanged_of_notSlice
      intro d hd
      rw [List.mem_singleton] at hd
      subst hd
      rintro ⟨-, -, -, hx, -⟩
      have h50 : sliceIdx imgA.w plateDetA.x1 = 50 := rfl
      omega
    · apply mask_unchanged_of_notSlice
      intro d hd
      rw [List.mem_singleton] at hd
      subst hd
      rintro ⟨-, -, -, -, hx⟩
      have h150 : sliceIdx imgA.w plateDetA.x2 = 150 := rfl
      omega
  · exact mask_white_of_inSlice imgA [plateDetA] 60 50
      ⟨plateDetA, List.mem_singleton.mpr rfl, by decide⟩

theorem mask_exact_region_witness :
    (mask_license_plates imgA [plateDetA]).pix 60 50 = whiteFill :=
  (mask_exact_region imgA [plateDetA] (by decide)).2.2.2

/-- C7 fails on negative coordinates: the box `(-5, 0, 10, 5)` on a 100-wide
image has the non-empty in-bounds part `[0, 5) × [0, 10)`, yet NumPy turns the
slice into `[0:5, 95:10]` (wrap-around, empty), so pixel `(0, 0)` — inside the
in-bounds part — is left unchanged rather than masked. -/
theorem mask_negative_coords_not_clamped :
    inClampedRegion imgB.h imgB.w plateDetNeg 0 0 ∧
    (mask_license_plates imgB [plateDetNeg]).pix 0 0 = imgB.pix 0 0 ∧
    imgB.pix 0 0 ≠ whiteFill := by decide

/-- C7 amended: for plate regions with nonnegative coordinates the slice is
clamped to the image extent, so masking paints exactly the in-bounds part of
each region; and for arbitrary regions masking never writes a pixel outside
the image bounds (negative coordinates wrap as NumPy indices instead of being
clamped — see the counterexample). -/
theorem mask_clamped_nonneg_spec (img : Image) (dets : List Detection)
    (hnn : ∀ d ∈ dets, 0 ≤ d.x1 ∧ 0 ≤ d.y1 ∧ 0 ≤ d.x2 ∧ 0 ≤ d.y2) :
    (∀ y x : ℕ, (∃ d ∈ dets, inClampedRegion img.h img.w d y x) →
        (mask_license_plates img dets).pix y x = whiteFill) ∧
    (∀ y x : ℕ, (∀ d ∈ dets, ¬ inClampedRegion img.h img.w d y x) →
        (mask_license_plates img dets).pix y x = img.pix y x) ∧
    (∀ (dets' : List Detection) (y x : ℕ), img.h ≤ y ∨ img.w ≤ x →
        (mask_license_plates img dets').pix y x = img.pix y x) := by
  refine ⟨?_, ?_, ?_⟩
  · rintro y x ⟨d, hd, hin⟩
    obtain ⟨b1, b2, b3, b4⟩ := hnn d hd
    exact mask_white_of_inSlice img dets y x
      ⟨d, hd, (inSlice_iff_inClampedRegion img.h img.w d y x b1 b2 b3 b4).mpr hin⟩
  · intro y x hout
    apply mask_unchanged_of_notSlice
    intro d hd hin
    obtain ⟨b1, b2, b3, b4⟩ := hnn d hd
    exact hout d hd ((inSlice_iff_inClampedRegion img.h img.w d y x b1 b2 b3 b4).mp hin)
  · intro dets' y x hyx
    exact mask_outside_bounds img dets' y x hyx

theorem mask_clamped_nonneg_spec_witness :
    (mask_license_plates imgB [plateDetWide]).pix 0 60 = whiteFill :=
  (mask_clamped_nonneg_spec imgB [plateDetWide] (by decide)).1 0 60
    ⟨plateDetWide, List.mem_singleton.mpr rfl, by decide⟩

/-! ### Claim theorems: vehicle localizer and cropper -/

/-- C4: `get_car_bbox` returns `None` exactly when no detection has a vehicle
class; otherwise it returns a vehicle box of maximal area
`(x2 - x1) * (y2 - y1)`, and the one it returns is the first maximal box in
detection order (everything before it is strictly smaller); in the scenario
with car boxes of areas 500 and 2000 it selects the area-2000 box. -/
theorem locate_largest_vehicle_first :
    (∀ dets : List Detection,
        (get_car_bbox (.ok dets) = none ↔ ∀ d ∈ dets, d.cls ∉ CAR_CLASS_IDS)) ∧
    (∀ (dets : List Detection) (b : Box), get_car_bbox (.ok dets) = some b →
        b ∈ vehicleBoxes dets ∧
        (∀ c ∈ vehicleBoxes dets, boxArea c ≤ boxArea b) ∧
        ∃ l₁ l₂, vehicleBoxes dets = l₁ ++ b :: l₂ ∧
          ∀ c ∈ l₁, boxArea c < boxArea b) ∧
    get_car_bbox (.ok scenarioDets) = some ⟨100, 100, 140, 150⟩ := by
  refine ⟨?_, ?_, by decide⟩
  · intro dets
    show maxByArea (vehicleBoxes dets) = none ↔ _
    rw [maxByArea_eq_none, vehicleBoxes_eq_nil]
  · intro dets b hb
    obtain ⟨hmax, l₁, l₂, heq, hpre⟩ := maxByArea_spec (vehicleBoxes dets) b hb
    refine ⟨?_, hmax, l₁, l₂, heq, hpre⟩
    rw [heq]
    exact List.mem_append_right l₁ (List.mem_cons_self b l₂)

theorem locate_largest_vehicle_first_witness :
    (⟨100, 100, 140, 150⟩ : Box) ∈ vehicleBoxes scenarioDets ∧
    ∀ c ∈ vehicleBoxes scenarioDets,
      boxArea c ≤ boxArea (⟨100, 100, 140, 150⟩ : Box) := by
  have h := locate_largest_vehicle_first.2.1 scenarioDets ⟨100, 100, 140, 150⟩ (by decide)
  exact ⟨h.1, h.2.1⟩

/-- C5: when the vehicle-box centre lies in the valid clamp range
`[new_w/2, W - new_w/2] × [new_h/2, H - new_h/2]` (stated integrally via
doubling), the crop window is centred exactly on the box centre
`((x1 + x2) // 2, (y1 + y2) // 2)`: corner plus half-extent recovers the
centre on both axes. -/
theorem crop_centered_on_vehicle (h w : ℕ) (b : Box)
    (hx1 : ((cropDims h w).1 : ℤ) ≤ 2 * (b.x1 + b.x2).fdiv 2)
    (hx2 : 2 * (b.x1 + b.x2).fdiv 2 ≤ 2 * (w : ℤ) - (cropDims h w).1)
    (hy1 : ((cropDims h w).2 : ℤ) ≤ 2 * (b.y1 + b.y2).fdiv 2)
    (hy2 : 2 * (b.y1 + b.y2).fdiv 2 ≤ 2 * (h : ℤ) - (cropDims h w).2) :
    (cropRect h w (some b)).x1 + ((cropRect h w (some b)).nw : ℤ).fdiv 2
        = (b.x1 + b.x2).fdiv 2 ∧
    (cropRect h w (some b)).y1 + ((cropRect h w (some b)).nh : ℤ).fdiv 2
        = (b.y1 + b.y2).fdiv 2 := by
  simp only [cropRect]
  rw [natCast_fdiv_two, natCast_fdiv_two]
  constructor <;> omega

theorem crop_centered_on_vehicle_witness :
    (cropRect 1000 2000 (some ⟨800, 400, 1000, 600⟩)).x1
        + ((cropRect 1000 2000 (some ⟨800, 400, 1000, 600⟩)).nw : ℤ).fdiv 2 = 900 ∧
    (cropRect 1000 2000 (some ⟨800, 400, 1000, 600⟩)).y1
        + ((cropRect 1000 2000 (some ⟨800, 400, 1000, 600⟩)).nh : ℤ).fdiv 2 = 500 := by
  have hc := crop_centered_on_vehicle 1000 2000 ⟨800, 400, 1000, 600⟩
    (by decide) (by decide) (by decide) (by decide)
  exact ⟨hc.1.trans (by decide), hc.2.trans (by decide)⟩

/-- C9: for any source image (height and width at least 1) and any vehicle box
lying inside it — or no box — the crop window has `new_w ≤ W`, `new_h ≤ H`,
and its top-left corner lies in `[0, W - new_w] × [0, H - new_h]`, so the
extracted window never exceeds the source bounds. -/
theorem crop_window_in_bounds (h w : ℕ) (box : Option Box)
    (hh : 1 ≤ h) (hw : 1 ≤ w)
    (hbox : ∀ b : Box, box = some b →
      0 ≤ b.x1 ∧ b.x2 ≤ (w : ℤ) ∧ 0 ≤ b.y1 ∧ b.y2 ≤ (h : ℤ)) :
    (cropRect h w box).nw ≤ w ∧ (cropRect h w box).nh ≤ h ∧
    0 ≤ (cropRect h w box).x1 ∧
    (cropRect h w box).x1 ≤ (w : ℤ) - (cropRect h w box).nw ∧
    0 ≤ (cropRect h w box).y1 ∧
    (cropRect h w box).y1 ≤ (h : ℤ) - (cropRect h w box).nh := by
  obtain ⟨hnw, hnh, h1, h2, h3, h4⟩ := cropRect_bounds h w box
  obtain ⟨hd1, hd2⟩ := cropDims_le h w
  exact ⟨hnw ▸ hd1, hnh ▸ hd2, h1, h2, h3, h4⟩

theorem crop_window_in_bounds_witness :
    (cropRect 100 200 (some ⟨10, 10, 50, 40⟩)).nw ≤ 200 ∧
    (cropRect 100 200 (some ⟨10, 10, 50, 40⟩)).nh ≤ 100 ∧
    0 ≤ (cropRect 100 200 (some ⟨10, 10, 50, 40⟩)).x1 ∧
    (cropRect 100 200 (some ⟨10, 10, 50, 40⟩)).x1
        ≤ (200 : ℤ) - (cropRect 100 200 (some ⟨10, 10, 50, 40⟩)).nw ∧
    0 ≤ (cropRect 100 200 (some ⟨10, 10, 50, 40⟩)).y1 ∧
    (cropRect 100 200 (some ⟨10, 10, 50, 40⟩)).y1
        ≤ (100 : ℤ) - (cropRect 100 200 (some ⟨10, 10, 50, 40⟩)).nh := by
  have hc := crop_window_in_bounds 100 200 (some ⟨10, 10, 50, 40⟩) (by decide) (by decide)
    (by intro b hb; injection hb with hb; subst hb; decide)
  exact hc

/-! ### Claim theorems: crop dimensions and the pipeline -/

/-- C3 fails on the spec scenario: for a 2000 × 1000 source the code computes
`new_w = int(1000 * 1024/576) = 1777` (truncation), not
`round(1000 * 1024/576) = 1778` as claimed. -/
theorem crop_dims_truncate_not_round :
    cropDims 1000 2000 = (1777, 1000) ∧ (1777 : ℕ) ≠ 1778 := by decide

/-- C3 amended: the crop dimensions truncate rather than round — when
`W/H > 1024/576` they are `new_h = H` and `new_w = ⌊H * (1024/576)⌋`, else
`new_w = W` and `new_h = ⌊W / (1024/576)⌋`; for the 2000 × 1000 scenario this
gives `new_w = 1777` (not 1778). -/
theorem crop_dims_floor_spec (h w : ℕ) (hh : 1 ≤ h) :
    ((1024 : ℚ) / 576 < (w : ℚ) / (h : ℚ) →
        cropDims h w = (⌊(h : ℚ) * ((1024 : ℚ) / 576)⌋₊, h)) ∧
    ((w : ℚ) / (h : ℚ) ≤ (1024 : ℚ) / 576 →
        cropDims h w = (w, ⌊(w : ℚ) / ((1024 : ℚ) / 576)⌋₊)) ∧
    cropDims 1000 2000 = (1777, 1000) := by
  have hq : (0 : ℚ) < (h : ℚ) := by exact_mod_cast hh
  refine ⟨?_, ?_, by decide⟩
  · intro hlt
    rw [div_lt_div_iff₀ (by norm_num) hq] at hlt
    have hn : 1024 * h < 576 * w := by
      have : (1024 : ℚ) * h < 576 * w := by linarith
      exact_mod_cast this
    unfold cropDims
    rw [if_pos hn]
    have hfd := Nat.floor_div_eq_div (α := ℚ) (1024 * h) 576
    have hcast : (h : ℚ) * ((1024 : ℚ) / 576) = ((1024 * h : ℕ) : ℚ) / ((576 : ℕ) : ℚ) := by
      push_cast
      ring
    rw [hcast, hfd]
  · intro hle
    rw [div_le_div_iff₀ hq (by norm_num)] at hle
    have hn : ¬ 1024 * h < 576 * w := by
      have : (576 : ℚ) * w ≤ 1024 * h := by linarith
      have hn' : 576 * w ≤ 1024 * h := by exact_mod_cast this
      omega
    unfold cropDims
    rw [if_neg hn]
    have hfd := Nat.floor_div_eq_div (α := ℚ) (576 * w) 1024
    have hcast : (w : ℚ) / ((1024 : ℚ) / 576) = ((576 * w : ℕ) : ℚ) / ((1024 : ℕ) : ℚ) := by
      push_cast
      ring
    rw [hcast, hfd]

theorem crop_dims_floor_spec_witness :
    cropDims 1000 2000 = (⌊(1000 : ℚ) * ((1024 : ℚ) / 576)⌋₊, 1000) :=
  (crop_dims_floor_spec 1000 2000 (by norm_num)).1 (by norm_num)

/-- C2 fails for the vehicle detector: when the vehicle-model call raises,
`get_car_bbox` catches the exception and returns `None`, so `process_image`
proceeds as the no-vehicle case and an output image IS written (`.ok`),
instead of raising a detection failure with no output. -/
theorem vehicle_detector_error_still_writes_output :
    ∃ out, process_image (some imgSquare) (.error ()) (.ok []) = Except.ok out :=
  ⟨_, rfl⟩

/-- C2 amended: an exception raised during vehicle detection is downgraded to
the no-vehicle case — `process_image` behaves exactly as if the vehicle
detector had returned no detections (and so still writes output when the rest
succeeds); only an exception raised during plate detection propagates, aborts
the pipeline, and leaves no output written. -/
theorem vehicle_error_downgraded_plate_error_aborts :
    (∀ (img : Image) (dets : List Detection) (e : DetErr),
        process_image (some img) (.error e) (.ok dets)
          = process_image (some img) (.ok []) (.ok dets)) ∧
    (∀ (img : Image) (c : Except DetErr (List Detection)) (e : DetErr),
        process_image (some img) c (.error e) = .error e) :=
  ⟨fun _ _ _ => rfl, fun _ _ _ => rfl⟩

/-- C1 fails for 1-pixel-wide inputs: a valid 1 × 1 image takes the
width-limited branch, `new_h = int(1 * 576/1024) = 0`, the crop is empty and
`cv2.resize` raises — `process_image` errors instead of returning a
1024 × 576 image. -/
theorem process_fails_on_width_one :
    imgOne.h = 1 ∧ imgOne.w = 1 ∧
    process_image (some imgOne) (.ok []) (.ok []) = .error () :=
  ⟨rfl, rfl, rfl⟩

/-- C1 amended: for every input image of width at least 2 (and height at least
1), the crop-and-resize stage succeeds and returns an image of exactly
`TARGET_SIZE = (1024, 576)`, and so does `process_image` as a whole (whatever
the detector outcomes); width-1 images instead make the crop empty and the
resize raise (see the counterexample). -/
theorem process_target_dims_of_width_ge_two (img : Image) (box : Option Box)
    (carDet : Except DetErr (List Detection)) (dets : List Detection)
    (hh : 1 ≤ img.h) (hw : 2 ≤ img.w) :
    (∃ out, resizeToAspect img box = some out ∧ out.w = 1024 ∧ out.h = 576) ∧
    (∃ out, process_image (some img) carDet (.ok dets) = .ok out ∧
        out.w = 1024 ∧ out.h = 576) := by
  refine ⟨resizeToAspect_dims img box hh hw, ?_⟩
  obtain ⟨out, heq, h1, h2⟩ := resizeToAspect_dims (mask_license_plates img dets)
    (get_car_bbox carDet) (by rw [mask_h]; exact hh) (by rw [mask_w]; exact hw)
  refine ⟨out, ?_, h1, h2⟩
  have hproc : process_image (some img) carDet (.ok dets)
      = match resizeToAspect (mask_license_plates img dets) (get_car_bbox carDet) with
        | none => .error ()
        | some o => .ok o := rfl
  rw [hproc, heq]

theorem process_target_dims_witness :
    (∃ out, resizeToAspect imgSmall none = some out ∧ out.w = 1024 ∧ out.h = 576) ∧
    (∃ out, process_image (some imgSmall) (.ok []) (.ok []) = .ok out ∧
        out.w = 1024 ∧ out.h = 576) :=
  process_target_dims_of_width_ge_two imgSmall none (.ok []) [] (by decide) (by decide)

end CarMasker
